import Mathlib

/-!
Verification of the retrieval engine of `ai-agents-portfolio`.

This file gives a shallow embedding, in Lean 4, of the parts of the
repository that the specification's testable claims are about:

* `src/src/tools/embed.py` — `cosine_similarity`;
* `src/src/tools/vector_store.py` — the `json` and `numpy` search
  adapters, artifact-line loading (`_ensure_records`), backend
  resolution in `LocalVectorStore.__init__` / `_load_meta`, and the
  faiss index lifecycle (`_reload_faiss_index`, `_ensure_faiss_index`,
  `_download_faiss_index`);
* `src/src/agents/retrieval_agent.py` — the MMR re-ranker `_mmr`, the
  answer-synthesis ladder `_llm_answer` with its local extractive
  fallback, and the source-id deduplication of `run`.

Modelling conventions: Python floats are modelled as `ℚ` with
`Rat.sqrt` standing for `math.sqrt` (both are roundings of the real
square root; no claim below depends on rounding).  Python dict fields
that may be absent are `Option`-typed, with `Option.getD` standing for
`dict.get(key, default)`; a `none` result field models a key that is
omitted from the returned dict.  Network calls (OpenAI client, S3, the
faiss file read) are modelled by explicit outcome parameters of type
`Except Unit _`: the embedded control flow is translated line by line
from the source, while the remote values themselves are free inputs.
-/

namespace AIAgentsPortfolio

-- DecidableEq for `Except`, needed to evaluate concrete outcomes.
deriving instance DecidableEq for Except

/-! ## Small string/list helpers shared by the embedding -/

/-- Python `sep.join(parts)`. -/
def joinSep (sep : String) : List String → String
  | [] => ""
  | [x] => x
  | x :: y :: xs => x ++ sep ++ joinSep sep (y :: xs)

/-- Python `str.lower()`, as a structural map over the characters. -/
def pyLower (s : String) : String := String.mk (s.data.map Char.toLower)

/-! ## embed.py — cosine_similarity (src/src/tools/embed.py lines 56-67) -/

/-- Squared L2 norm `sum(x * x for x in l)` of a float list. -/
def sumSq (l : List ℚ) : ℚ := (l.map (fun x => x * x)).sum

/-- Python `sum(x * y for x, y in zip(a, b))`; `zip` truncates to the
shorter list. -/
def dotProd (a b : List ℚ) : ℚ := ((a.zip b).map (fun p => p.1 * p.2)).sum

/-- Embedding of `cosine_similarity` (embed.py lines 56-67): returns
`0.0` for an empty operand (`if not a or not b`), computes `dot`,
`na = math.sqrt(sum(x*x))`, `nb` likewise, returns `0.0` when either
norm is zero, else `dot / (na * nb)`. -/
def cosine_similarity (a b : List ℚ) : ℚ :=
  if a = [] ∨ b = [] then 0
  else
    let dot := dotProd a b
    let na := Rat.sqrt (sumSq a)
    let nb := Rat.sqrt (sumSq b)
    if na = 0 ∨ nb = 0 then 0 else dot / (na * nb)

/-! ## vector_store.py — data model -/

/-- A stored Record, one line of `index.jsonl` after `json.loads`
(vector_store.py `_ensure_records`).  Every field is read through
`dict.get`, so every field is optional. -/
structure Rec where
  id : Option String
  chunk : Option Int
  text : Option String
  embedding : Option (List ℚ)
deriving DecidableEq, Repr, Inhabited

/-- A query Hit as built by the search adapters.  `text = none` and
`embedding = none` model dict keys that are omitted from the result;
`some _` models a present key. -/
structure Hit where
  id : Option String
  score : ℚ
  chunk : Int
  text : Option String
  embedding : Option (List ℚ)
deriving DecidableEq, Repr, Inhabited

/-- Result-item construction shared by `_json_search`'s loop body
(vector_store.py lines 179-189): `id`, `score`, `chunk` always present,
`text`/`embedding` only under their include flags. -/
def hitOfScored (include_text include_embedding : Bool) (p : ℚ × Rec) : Hit :=
  { id := p.2.id
    score := p.1
    chunk := p.2.chunk.getD 0
    text := if include_text then some (p.2.text.getD "") else none
    embedding := if include_embedding then some (p.2.embedding.getD []) else none }

/-- Embedding of `LocalVectorStore._json_search` (vector_store.py lines
164-190): empty records short-circuit to `[]`; otherwise score every
record by cosine similarity against the query vector, stable-sort by
score descending (`scored.sort(key=..., reverse=True)`), truncate to
`top_k` and build the result items. -/
def json_search (records : List Rec) (query_vec : List ℚ) (top_k : ℕ)
    (include_text include_embedding : Bool) : List Hit :=
  if records = [] then []
  else
    let scored := records.map (fun r => (cosine_similarity query_vec (r.embedding.getD []), r))
    let sorted := scored.mergeSort (fun x y => y.1 ≤ x.1)
    (sorted.take top_k).map (hitOfScored include_text include_embedding)

/-- Scores of `_numpy_search` (vector_store.py lines 204-211):
`denom = np.linalg.norm(query)`; if zero, all scores are `0`, else each
row of the stored matrix is dotted with the normalized query. -/
def numpyScores (vectors : List (List ℚ)) (query_vec : List ℚ) : List ℚ :=
  let denom := Rat.sqrt (sumSq query_vec)
  if denom = 0 then vectors.map (fun _ => 0)
  else vectors.map (fun row => dotProd row (query_vec.map (fun x => x / denom)))

/-- Indices of `np.argsort(scores)[::-1]` (vector_store.py line 212):
indices sorted by score ascending, then reversed. `np.argsort` leaves
ties in an unspecified order; we model it with a (stable) merge sort,
a particular refinement of that freedom. -/
def argsortDesc (scores : List ℚ) : List ℕ :=
  ((List.range scores.length).mergeSort (fun i j => scores.getD i 0 ≤ scores.getD j 0)).reverse

/-- Embedding of `LocalVectorStore._numpy_search` (vector_store.py lines
192-226): top `top_k` indices by descending score; each index is
resolved against the loaded records (`self._records[idx]`). -/
def numpy_search (records : List Rec) (vectors : List (List ℚ)) (query_vec : List ℚ)
    (top_k : ℕ) (include_text include_embedding : Bool) : List Hit :=
  let scores := numpyScores vectors query_vec
  ((argsortDesc scores).take top_k).map (fun idx =>
    let r := records.getD idx default
    { id := r.id
      score := scores.getD idx 0
      chunk := r.chunk.getD 0
      text := if include_text then some (r.text.getD "") else none
      embedding := if include_embedding then some (r.embedding.getD []) else none })

/-! ## vector_store.py — artifact loading (`_ensure_records`) -/

/-- One line of the `index.jsonl` artifact as seen by `_ensure_records`
(vector_store.py lines 398-414): blank after `strip()`, not valid JSON
(`json.loads` raises), or a parsed record.  A parsed record whose
`embedding` value is missing or not a list is modelled by
`embedding = none` on the record. -/
inductive SrcLine where
  | blank
  | invalid
  | record (r : Rec)
deriving DecidableEq, Repr

/-- Embedding of `_ensure_records`'s line loop: blank lines are skipped,
a non-JSON line raises (`json.loads`) and the error escapes to the
caller, and a parsed object is kept only if `isinstance(obj.get("embedding"), list)`.
A missing artifact file corresponds to the input `[]`
(`except FileNotFoundError: recs = []`). -/
def ensure_records : List SrcLine → Except Unit (List Rec)
  | [] => .ok []
  | .blank :: ls => ensure_records ls
  | .invalid :: _ => .error ()
  | .record r :: ls =>
    match r.embedding with
    | some _ => (ensure_records ls).map (fun recs => r :: recs)
    | none => ensure_records ls

/-- Records that `_ensure_records` keeps from an artifact: parsed lines
whose embedding is a list. -/
def goodRecs (ls : List SrcLine) : List Rec :=
  ls.filterMap (fun l =>
    match l with
    | .record r => if r.embedding.isSome then some r else none
    | _ => none)

/-- The `search` entry for the json backend (vector_store.py lines
134-146): load records (propagating any data error), then run
`_json_search`. -/
def searchJsonOp (ls : List SrcLine) (query_vec : List ℚ) (top_k : ℕ)
    (include_text include_embedding : Bool) : Except Unit (List Hit) :=
  (ensure_records ls).map
    (fun recs => json_search recs query_vec top_k include_text include_embedding)

/-! ## vector_store.py — backend selection and the faiss lifecycle -/

/-- The artifact metadata object `meta.json` (only the keys the claims
touch). -/
structure Meta where
  backend : Option String
  collection : Option String
deriving DecidableEq, Repr

/-- Python `x or y` on optional strings: the left value wins iff it is
truthy (present and non-empty). -/
def pyOrStr (a b : Option String) : Option String :=
  match a with
  | some s => if s = "" then b else some s
  | none => b

/-- Embedding of the backend resolution in `LocalVectorStore.__init__`
(vector_store.py lines 72-74):
`(backend_override or meta_backend or "json").lower()`. -/
def resolveBackend (override metaBackend : Option String) : String :=
  pyLower ((pyOrStr (pyOrStr override metaBackend) (some "json")).getD "json")

/-- Embedding of `_load_meta` (vector_store.py lines 390-396): a missing
`meta.json` (`FileNotFoundError`) degrades to an empty metadata dict. -/
def load_meta (metaFile : Option Meta) : Meta :=
  metaFile.getD { backend := none, collection := none }

/-- The mutable state of one `LocalVectorStore` instance: the resolved
backend (fixed at construction), the lazily-loaded record cache, the
faiss index handle (`_faiss_index`, tagged by generation number) and
the live checkpoint task (`_faiss_checkpoint`, tagged by the generation
it serializes), plus whether S3 checkpointing is configured. -/
structure StoreState where
  backend : String
  records : Option (List Rec)
  faissIndex : Option ℕ
  faissCheckpoint : Option ℕ
  s3Enabled : Bool
deriving DecidableEq, Repr

/-- Embedding of `LocalVectorStore.__init__` for the state the claims
need: `_load_meta` then backend resolution; caches start empty. -/
def mkStore (override : Option String) (metaFile : Option Meta) (s3 : Bool) : StoreState :=
  { backend := resolveBackend override (load_meta metaFile).backend
    records := none
    faissIndex := none
    faissCheckpoint := none
    s3Enabled := s3 }

/-- Embedding of `_ensure_records`'s caching shell (lines 398-400 plus
the loop): a second call is a no-op; otherwise parse the artifact and
cache the result. -/
def ensureRecordsSt (ls : List SrcLine) (s : StoreState) : Except Unit StoreState :=
  match s.records with
  | some _ => .ok s
  | none => (ensure_records ls).map (fun recs => { s with records := some recs })

/-- Embedding of `_reload_faiss_index` (vector_store.py lines 451-472).
`download` is the outcome of `_download_faiss_index` (lines 528-542)
and `readIdx` the outcome of `faiss.read_index`.  The source stops the
checkpoint task and clears `self._faiss_index` *before* fetching and
reading the new artifact; a failure at either step leaves the state
with no index.  On success the new generation is installed and, when S3
sync is configured, a fresh checkpoint task is started. -/
def reloadFaissSt (download : Except Unit Unit) (readIdx : Except Unit ℕ)
    (s : StoreState) : Except Unit Unit × StoreState :=
  let s1 := { s with faissCheckpoint := none, faissIndex := none }
  match download with
  | .error e => (.error e, s1)
  | .ok _ =>
    match readIdx with
    | .error e => (.error e, s1)
    | .ok idx =>
      let s2 := { s1 with faissIndex := some idx }
      (.ok (), if s.s3Enabled then { s2 with faissCheckpoint := some idx } else s2)

/-- Embedding of `LocalVectorStore.reload` (vector_store.py lines
159-162): only the faiss backend has a reloadable local handle. -/
def reloadSt (download : Except Unit Unit) (readIdx : Except Unit ℕ)
    (s : StoreState) : Except Unit Unit × StoreState :=
  if s.backend = "faiss" then reloadFaissSt download readIdx s else (.ok (), s)

/-- Embedding of `_ensure_faiss_index` (vector_store.py lines 427-449):
a present handle is kept; otherwise download and read the artifact
(failures propagate) and start a checkpoint task when S3 sync is
configured and none is live. -/
def ensureFaissSt (download : Except Unit Unit) (readIdx : Except Unit ℕ)
    (s : StoreState) : Except Unit StoreState :=
  match s.faissIndex with
  | some _ => .ok s
  | none =>
    match download with
    | .error e => .error e
    | .ok _ =>
      match readIdx with
      | .error e => .error e
      | .ok idx =>
        .ok { s with
              faissIndex := some idx
              faissCheckpoint :=
                if s.s3Enabled ∧ s.faissCheckpoint = none then some idx
                else s.faissCheckpoint }

/-- Embedding of `_faiss_search`'s handle acquisition (vector_store.py
lines 228-245): ensure the index is loaded, then query it.  The returned
number is the generation of the index the query ran against (the
nearest-neighbor math itself lives in the faiss library, outside this
repository). -/
def faissSearchSt (download : Except Unit Unit) (readIdx : Except Unit ℕ)
    (s : StoreState) : Except Unit (ℕ × StoreState) :=
  match ensureFaissSt download readIdx s with
  | .error e => .error e
  | .ok s' =>
    match s'.faissIndex with
    | none => .error ()
    | some idx => .ok (idx, s')

/-! ## retrieval_agent.py — the MMR re-ranker (`_mmr`, lines 284-314) -/

/-- Python truthiness of `c.get("embedding")`: the key is present and
the list is non-empty. -/
def hasEmb (c : Hit) : Bool :=
  match c.embedding with
  | some (_ :: _) => true
  | _ => false

/-- Python `max` over a non-empty list, seeded with its head. -/
def listMax1 : ℚ → List ℚ → ℚ
  | x, [] => x
  | x, y :: ys => listMax1 (max x y) ys

/-- Python `max(iterable)`; `_mmr` only evaluates it on the non-empty
`selected` list (it would raise on an empty one, modelled by `0`). -/
def listMax : List ℚ → ℚ
  | [] => 0
  | x :: xs => listMax1 x xs

/-- The marginal-relevance score of one remaining candidate
(retrieval_agent.py lines 305-309):
`lam * sim(query, item) - (1 - lam) * max(sim(item, s) for s in selected)`. -/
def mmrItemScore (lam : ℚ) (q_vec : List ℚ) (selected : List Hit) (item : Hit) : ℚ :=
  let simQ := cosine_similarity q_vec (item.embedding.getD [])
  let simSel := listMax (selected.map
    (fun s => cosine_similarity (item.embedding.getD []) (s.embedding.getD [])))
  lam * simQ - (1 - lam) * simSel

/-- First index attaining the maximum under strict-improvement scanning
(`if score > best_score: best_idx = i`), continuing from index `i` with
current best `(best, bestScore)`. -/
def argmaxAux (best : ℕ) (bestScore : ℚ) (i : ℕ) : List ℚ → ℕ
  | [] => best
  | s :: rest =>
    if bestScore < s then argmaxAux i s (i + 1) rest
    else argmaxAux best bestScore (i + 1) rest

/-- The `best_idx` computed by `_mmr`'s inner loop.  The Python loop
starts from `best_score = -inf`, so the first element always becomes
the initial best. -/
def argmaxFirst : List ℚ → ℕ
  | [] => 0
  | s :: rest => argmaxAux 0 s 1 rest

/-- The `while remaining and len(selected) < k` loop of `_mmr`
(retrieval_agent.py lines 301-313), with explicit fuel equal to the
initial length of `remaining`; each iteration pops exactly one element,
so the fuel never runs out before `remaining` does. -/
def mmrLoop (lam : ℚ) (q_vec : List ℚ) (k : ℕ) :
    ℕ → List Hit → List Hit → List Hit
  | 0, selected, _ => selected
  | fuel + 1, selected, remaining =>
    if remaining = [] ∨ k ≤ selected.length then selected
    else
      let i := argmaxFirst (remaining.map (mmrItemScore lam q_vec selected))
      mmrLoop lam q_vec k fuel
        (selected ++ [remaining.getD i default]) (remaining.eraseIdx i)

/-- Embedding of `RetrievalAgent._mmr` (retrieval_agent.py lines
284-314): empty candidates return `[]`; candidates without a (truthy)
embedding are filtered out of the pool; an all-filtered pool degrades
to `cands[:k]`; otherwise the pool is stable-sorted by query similarity
descending, the top item seeds the selection, the marginal-relevance
loop fills it, and `selected[:k]` is returned. -/
def mmr (q_vec : List ℚ) (cands : List Hit) (k : ℕ) (lam : ℚ) : List Hit :=
  if cands = [] then []
  else
    let pool := cands.filter hasEmb
    if pool = [] then cands.take k
    else
      let sorted := pool.mergeSort (fun a b =>
        cosine_similarity q_vec (b.embedding.getD []) ≤
          cosine_similarity q_vec (a.embedding.getD []))
      match sorted with
      | [] => []
      | seed :: rest => (mmrLoop lam q_vec k rest.length [seed] rest).take k

/-! ## retrieval_agent.py — local extractive fallback
(`_llm_answer`'s `except` branch, lines 228-282) and `run`'s source
deduplication (lines 330-336) -/

/-- Python `str(d.get("id")) if d.get("id") is not None else ""`. -/
def sidOf (d : Hit) : String := d.id.getD ""

/-- The non-empty source ids of the passages, in passage order (the raw
occurrence list that the dedup loop walks). -/
def sidList (docs : List Hit) : List String :=
  (docs.map sidOf).filter (fun s => s ≠ "")

/-- The `seen`/`srcs` deduplication loop shared verbatim by
`_llm_answer` (lines 264-270) and `run` (lines 330-336): append a
source id iff it is truthy and not seen yet. -/
def dedupSourcesAux : List Hit → List String → List String
  | [], acc => acc
  | d :: ds, acc =>
    let sid := sidOf d
    if sid ≠ "" ∧ sid ∉ acc then dedupSourcesAux ds (acc ++ [sid])
    else dedupSourcesAux ds acc

/-- Deduplicated, order-preserving source identifiers of a passage
list. -/
def dedupSources (docs : List Hit) : List String := dedupSourcesAux docs []

/-- Truthy passage texts: `[d.get("text", "") for d in docs if d.get("text")]`. -/
def textsOf (docs : List Hit) : List String :=
  docs.filterMap (fun d =>
    match d.text with
    | some t => if t = "" then none else some t
    | none => none)

/-- Sentence-ending punctuation of the regex `(?<=[.!?])\s+`. -/
def sentencePunct : List Char := ['.', '!', '?']

/-- Whether the accumulated segment ends in sentence punctuation. -/
def endsPunct : List Char → Bool
  | p :: _ => p ∈ sentencePunct
  | [] => false

/-- Character-level pass implementing `re.split(r"(?<=[.!?])\s+", t)`:
split at every maximal whitespace run that follows a `.`, `!` or `?`,
consuming the whitespace.  `acc` holds the current segment reversed. -/
def splitSentsAux : List Char → List Char → List (List Char)
  | [], acc => [acc.reverse]
  | c :: rest, acc =>
    if c.isWhitespace && endsPunct acc then
      acc.reverse :: splitSentsAux (rest.dropWhile Char.isWhitespace) []
    else
      splitSentsAux rest (c :: acc)
termination_by cs _ => cs.length
decreasing_by
  · have h := (rest.dropWhile_sublist Char.isWhitespace).length_le
    simp only [List.length_cons]
    omega
  · simp

/-- Sentence split of one passage text. -/
def splitSents (t : String) : List String :=
  (splitSentsAux t.data []).map (fun cs => String.mk cs)

/-- Inner sentence-collection loop (retrieval_agent.py lines 235-240):
strip, keep sentences of length 40-300, break once five are
collected. -/
def collectInner : List String → List String → List String
  | [], acc => acc
  | s :: ss, acc =>
    let s' := s.trim
    if 40 ≤ s'.length ∧ s'.length ≤ 300 then
      let acc' := acc ++ [s']
      if 5 ≤ acc'.length then acc' else collectInner ss acc'
    else collectInner ss acc

/-- Outer sentence-collection loop over the passage texts (lines
234-242), with the same five-sentence break. -/
def collectOuter : List String → List String → List String
  | [], acc => acc
  | t :: ts, acc =>
    let acc' := collectInner (splitSents t) acc
    if 5 ≤ acc'.length then acc' else collectOuter ts acc'

/-- Candidate summary sentences extracted from the passage texts. -/
def collectSents (texts : List String) : List String := collectOuter texts []

/-- Python `" ".join(sents[:3]) or "Context available but LLM unavailable to synthesize."`
(line 243). -/
def summaryOf (sents : List String) : String :=
  let j := joinSep " " (sents.take 3)
  if j = "" then "Context available but LLM unavailable to synthesize." else j

/-- The fixed risk-indicator vocabulary (line 246). -/
def riskTerms : List String :=
  ["hallucination", "uncertainty", "misinterpret", "outdated", "loop", "error"]

/-- Canned risk bullets emitted when an indicator term is found (lines
251-255). -/
def risksFound : List String :=
  ["Hallucination or misinterpretation under uncertainty",
   "Over-reliance on external retrieval quality",
   "Action/observation loops leading to errors"]

/-- Canned risk bullets emitted otherwise (lines 258-262). -/
def risksDefault : List String :=
  ["Ambiguous context may reduce answer quality",
   "Limited grounding without full model synthesis",
   "Potential omission of key details"]

/-- Python `needle in hay` on strings: contiguous substring test. -/
def containsSub (hay needle : String) : Bool :=
  decide (needle.data <:+: hay.data)

/-- The risk scan (lines 248-252): some passage text, lowercased,
contains some risk term. -/
def hasRisk (texts : List String) : Bool :=
  texts.any (fun t => riskTerms.any (fun k => containsSub (pyLower t) k))

/-- The lines of the locally synthesized fallback answer (lines
272-281): summary, blank, risk header and bullets, and — when any
source id survives deduplication — a blank, a `Sources:` header and one
numbered line per source. -/
def localAnswerLines (docs : List Hit) : List String :=
  let texts := textsOf docs
  let summary := summaryOf (collectSents texts)
  let risks := if hasRisk texts then risksFound else risksDefault
  let srcs := dedupSources docs
  ([summary, "", "### Key Risks:"] ++ risks.map (fun r => "- " ++ r)) ++
    (if srcs = [] then []
     else ["", "Sources:"] ++
       srcs.enum.map (fun p => "- [#" ++ toString (p.1 + 1) ++ "] " ++ p.2))

/-- The local extractive fallback answer: `"\n".join(lines)` (line 282). -/
def local_answer (docs : List Hit) : String :=
  joinSep "\n" (localAnswerLines docs)

/-- The fallback answer for an empty passage list: fixed summary, the
default risk bullets, no source section. -/
def insufficientContextMsg : String :=
  "Context available but LLM unavailable to synthesize.\n\n### Key Risks:\n- Ambiguous context may reduce answer quality\n- Limited grounding without full model synthesis\n- Potential omission of key details"

/-! ## retrieval_agent.py — the answer-synthesis ladder
(`_llm_answer`, lines 120-282) -/

/-- Outcomes of the remote calls one `_llm_answer` invocation can make.
`clientOk` models whether `OpenAI()` construction succeeds;
`streamDeltas` the gpt-5 streaming attempt (the text deltas it yields,
or an exception); `respText` the non-streaming `responses.create`
attempt, abstracted to the text the permissive extractor chain obtains
from its payload (`""` = no text extracted); `chatLegacy` and `chatNew`
the two chat-completions parameter shapes, each yielding
`message.content` (which the API may return as `None`). -/
structure Remote where
  clientOk : Bool
  streamDeltas : Except Unit (List String)
  respText : Except Unit String
  chatLegacy : Except Unit (Option String)
  chatNew : Except Unit (Option String)
deriving DecidableEq, Repr

/-- Outcome of the Responses-API phase: an answer to return, a
fall-through to the chat-completions phase, or an exception escaping to
the outer handler. -/
inductive RespStep where
  | ret (s : String)
  | cont
  | raise
deriving DecidableEq, Repr

/-- The Responses-API phase (lines 142-209).  For gpt-5 models the
streaming attempt runs first: truthy deltas are collected and, if any,
joined and returned; otherwise (or on a stream exception) the
non-streaming call runs.  Extracted truthy text is returned; no text
raises for gpt-5 (`responses_api_empty`, re-raised by the inner
handler) and falls through to chat otherwise; a create exception
likewise re-raises for gpt-5 and falls through otherwise. -/
def responsesPhase (isV5 : Bool) (r : Remote) : RespStep :=
  let afterCreate : RespStep :=
    match r.respText with
    | .error _ => if isV5 then .raise else .cont
    | .ok t => if t ≠ "" then .ret t else if isV5 then .raise else .cont
  if isV5 then
    match r.streamDeltas with
    | .ok deltas =>
      let parts := deltas.filter (fun d => d ≠ "")
      if parts ≠ [] then .ret (joinSep "" parts) else afterCreate
    | .error _ => afterCreate
  else afterCreate

/-- The chat-completions phase (lines 211-227): the legacy parameter
shape first, then the `max_completion_tokens` shape; a success returns
`content or ""`; a second failure escapes to the outer handler. -/
def chatPhase (r : Remote) : Except Unit String :=
  match r.chatLegacy with
  | .ok c => .ok (c.getD "")
  | .error _ =>
    match r.chatNew with
    | .ok c => .ok (c.getD "")
    | .error e => .error e

/-- Embedding of `RetrievalAgent._llm_answer` (lines 120-282).  The
outer `try` absorbs every exception into the local extractive fallback;
the prompt assembly (lines 121-133) only feeds the remote calls, whose
outcomes are the `Remote` parameter, so `question` does not otherwise
influence the result. -/
def llm_answer (isV5 : Bool) (r : Remote) (_question : String) (docs : List Hit) : String :=
  if r.clientOk = false then local_answer docs
  else
    match responsesPhase isV5 r with
    | .ret s => s
    | .raise => local_answer docs
    | .cont =>
      match chatPhase r with
      | .ok s => s
      | .error _ => local_answer docs

/-- Every remote reasoning attempt fails with an exception. -/
def remoteAllFail (r : Remote) : Prop :=
  r.streamDeltas = .error () ∧ r.respText = .error () ∧
    r.chatLegacy = .error () ∧ r.chatNew = .error ()

/-- Every chat-completions attempt that succeeds carries truthy
content.  Under this condition (and in particular when both chat
attempts fail) the ladder's answer is non-empty. -/
def chatContentTruthy (r : Remote) : Prop :=
  (∀ c, r.chatLegacy = .ok c → c.getD "" ≠ "") ∧
    (∀ c, r.chatNew = .ok c → c.getD "" ≠ "")

/-! ## Concrete fixtures used by witnesses and counterexamples -/

/-- A remote behavior whose attempts all raise. -/
def remoteDown : Remote :=
  { clientOk := true
    streamDeltas := .error ()
    respText := .error ()
    chatLegacy := .error ()
    chatNew := .error () }

/-- A remote behavior whose Responses attempt raises and whose legacy
chat attempt succeeds with empty content (`content or ""` then returns
the empty string). -/
def remoteEmptyChat : Remote :=
  { clientOk := true
    streamDeltas := .error ()
    respText := .error ()
    chatLegacy := .ok (some "")
    chatNew := .error () }

/-- A record fixture: id `alpha-doc`, embedding `[1, 0]`. -/
def recAlpha : Rec :=
  { id := some "alpha-doc", chunk := some 0, text := some "Alpha text.", embedding := some [1, 0] }

/-- A record fixture: id `beta-doc`, embedding `[0, 1]`. -/
def recBeta : Rec :=
  { id := some "beta-doc", chunk := some 1, text := some "Beta text.", embedding := some [0, 1] }

/-- A hit fixture carrying an embedding aligned with the query `[1, 0]`. -/
def hitAlpha : Hit :=
  { id := some "alpha-doc", score := 1, chunk := 0, text := some "Alpha text.",
    embedding := some [1, 0] }

/-- A hit fixture carrying an embedding orthogonal to the query `[1, 0]`. -/
def hitBeta : Hit :=
  { id := some "beta-doc", score := 0, chunk := 1, text := some "Beta text.",
    embedding := some [0, 1] }

/-- A hit fixture with no embedding attached. -/
def hitNoEmb : Hit :=
  { id := some "gamma-doc", score := 0, chunk := 0, text := some "Gamma text.",
    embedding := none }

/-- A loaded faiss-backed store on generation `1` with a live
checkpoint task and S3 sync configured. -/
def faissStoreGen1 : StoreState :=
  { backend := "faiss", records := none, faissIndex := some 1,
    faissCheckpoint := some 1, s3Enabled := true }

end AIAgentsPortfolio

namespace AIAgentsPortfolio

/-! ## Helper lemmas -/

theorem pairwise_mergeSort_descBy {α : Type} (f : α → ℚ) (l : List α) :
    (l.mergeSort (fun a b => f b ≤ f a)).Pairwise (fun a b => f b ≤ f a) := by
  have h := @List.sorted_mergeSort α (fun a b : α => decide (f b ≤ f a))
    (fun a b c hab hbc =>
      decide_eq_true (le_trans (of_decide_eq_true hbc) (of_decide_eq_true hab)))
    (fun a b => by
      rcases le_total (f b) (f a) with h | h <;> simp [h])
    l
  exact h.imp (fun hd => of_decide_eq_true hd)

theorem pairwise_mergeSort_ascBy {α : Type} (f : α → ℚ) (l : List α) :
    (l.mergeSort (fun a b => f a ≤ f b)).Pairwise (fun a b => f a ≤ f b) := by
  have h := @List.sorted_mergeSort α (fun a b : α => decide (f a ≤ f b))
    (fun a b c hab hbc =>
      decide_eq_true (le_trans (of_decide_eq_true hab) (of_decide_eq_true hbc)))
    (fun a b => by
      rcases le_total (f a) (f b) with h | h <;> simp [h])
    l
  exact h.imp (fun hd => of_decide_eq_true hd)

theorem string_ne_empty_of_data_ne_nil {s : String} (h : s.data ≠ []) : s ≠ "" := by
  intro hs
  apply h
  rw [hs]

theorem joinSep_two_ne_empty (sep x y : String) (l : List String)
    (hsep : sep.data ≠ []) : joinSep sep (x :: y :: l) ≠ "" := by
  apply string_ne_empty_of_data_ne_nil
  show (x ++ sep ++ joinSep sep (y :: l)).data ≠ []
  rw [String.data_append, String.data_append]
  intro h
  have := congrArg List.length h
  simp only [List.length_append, List.length_nil] at this
  have : sep.data.length = 0 := by omega
  exact hsep (List.length_eq_zero.mp this)

theorem data_ne_nil_of_ne_empty {s : String} (h : s ≠ "") : s.data ≠ [] := by
  intro hd
  apply h
  cases s with
  | mk d =>
    have hd' : d = [] := hd
    rw [hd']

theorem joinSep_head_ne_empty (x : String) (l : List String) (hx : x ≠ "") :
    joinSep "" (x :: l) ≠ "" := by
  cases l with
  | nil => exact hx
  | cons y ys =>
    apply string_ne_empty_of_data_ne_nil
    show (x ++ "" ++ joinSep "" (y :: ys)).data ≠ []
    rw [String.data_append, String.data_append]
    intro h
    have hlen := congrArg List.length h
    simp only [List.length_append, List.length_nil] at hlen
    have hx' : x.data ≠ [] := data_ne_nil_of_ne_empty hx
    have hx0 : x.data.length ≠ 0 := fun h0 => hx' (List.length_eq_zero.mp h0)
    omega

theorem infix_trans {α : Type} {l₁ l₂ l₃ : List α}
    (h₁ : l₁ <:+: l₂) (h₂ : l₂ <:+: l₃) : l₁ <:+: l₃ := by
  obtain ⟨s₁, t₁, e₁⟩ := h₁
  obtain ⟨s₂, t₂, e₂⟩ := h₂
  exact ⟨s₂ ++ s₁, t₁ ++ t₂, by rw [← e₂, ← e₁]; simp⟩

theorem infix_of_suffix {α : Type} {l₁ l₂ : List α} (h : l₁ <:+ l₂) : l₁ <:+: l₂ := by
  obtain ⟨t, ht⟩ := h
  exact ⟨t, [], by simp [ht]⟩

theorem mem_infix_joinSep {l : String} {ls : List String} (sep : String)
    (h : l ∈ ls) : l.data <:+: (joinSep sep ls).data := by
  induction ls with
  | nil => cases h
  | cons x xs ih =>
    cases xs with
    | nil =>
      rcases List.mem_cons.mp h with rfl | h'
      · exact ⟨[], [], by simp [joinSep]⟩
      · cases h'
    | cons y ys =>
      rcases List.mem_cons.mp h with rfl | h'
      · show l.data <:+: (l ++ sep ++ joinSep sep (y :: ys)).data
        rw [String.data_append, String.data_append]
        exact ⟨[], sep.data ++ (joinSep sep (y :: ys)).data, by simp⟩
      · have hrec := ih h'
        show l.data <:+: (x ++ sep ++ joinSep sep (y :: ys)).data
        rw [String.data_append, String.data_append]
        exact infix_trans hrec (infix_of_suffix (List.suffix_append _ _))

theorem sumSq_nonneg (l : List ℚ) : 0 ≤ sumSq l := by
  refine List.sum_nonneg ?_
  intro x hx
  obtain ⟨y, _, rfl⟩ := List.mem_map.mp hx
  exact mul_self_nonneg y

theorem rat_sqrt_eq_zero_iff {q : ℚ} (hq : 0 ≤ q) : Rat.sqrt q = 0 ↔ q = 0 := by
  constructor
  · intro h
    rw [Rat.sqrt] at h
    have hden : Nat.sqrt q.den ≠ 0 := by
      have : 0 < Nat.sqrt q.den := Nat.sqrt_pos.mpr q.den_pos
      omega
    have hnum : Int.sqrt q.num = 0 := (Rat.mkRat_eq_zero hden).mp h
    have hnum' : Nat.sqrt q.num.toNat = 0 := by
      have : ((Nat.sqrt q.num.toNat : ℤ)) = 0 := hnum
      exact_mod_cast this
    have h0 : q.num.toNat = 0 := Nat.sqrt_eq_zero.mp hnum'
    have hnn : 0 ≤ q.num := Rat.num_nonneg.mpr hq
    have : q.num = 0 := by omega
    exact Rat.num_eq_zero.mp this
  · intro h
    subst h
    rfl


/-! ## C10 — totality of cosine_similarity -/

/-- C10: `cosine_similarity` is total over all pairs of float lists: it
returns exactly `0.0` whenever either input list is empty or has zero
L2 norm (lists of differing lengths are truncated by the zipped
pairwise product), and otherwise its value is the guarded quotient with
a provably non-zero divisor — it never divides by zero. -/
theorem cosine_similarity_total (a b : List ℚ) :
    ((a = [] ∨ b = [] ∨ sumSq a = 0 ∨ sumSq b = 0) → cosine_similarity a b = 0) ∧
    (cosine_similarity a b = 0 ∨
      (Rat.sqrt (sumSq a) * Rat.sqrt (sumSq b) ≠ 0 ∧
        cosine_similarity a b = dotProd a b / (Rat.sqrt (sumSq a) * Rat.sqrt (sumSq b)))) := by
  by_cases he : a = [] ∨ b = []
  · constructor
    · intro _
      simp only [cosine_similarity, if_pos he]
    · left
      simp only [cosine_similarity, if_pos he]
  · by_cases hz : Rat.sqrt (sumSq a) = 0 ∨ Rat.sqrt (sumSq b) = 0
    · constructor
      · intro _
        simp only [cosine_similarity, if_neg he, if_pos hz]
      · left
        simp only [cosine_similarity, if_neg he, if_pos hz]
    · push_neg at hz
      have hz' : ¬(Rat.sqrt (sumSq a) = 0 ∨ Rat.sqrt (sumSq b) = 0) := by
        intro hc
        rcases hc with hc | hc
        · exact hz.1 hc
        · exact hz.2 hc
      constructor
      · intro h
        rcases h with h | h | h | h
        · exact absurd (Or.inl h) he
        · exact absurd (Or.inr h) he
        · exact absurd ((rat_sqrt_eq_zero_iff (sumSq_nonneg a)).mpr h) hz.1
        · exact absurd ((rat_sqrt_eq_zero_iff (sumSq_nonneg b)).mpr h) hz.2
      · right
        refine ⟨mul_ne_zero hz.1 hz.2, ?_⟩
        simp only [cosine_similarity, if_neg he, if_neg hz']

/-- Witness for C10: the all-zero vector `[0, 0]` has zero L2 norm, and
cosine similarity against `[1]` (a list of different length) is `0`. -/
theorem cosine_similarity_total_witness :
    ([(0 : ℚ), 0] = [] ∨ [(1 : ℚ)] = [] ∨ sumSq [(0 : ℚ), 0] = 0 ∨ sumSq [(1 : ℚ)] = 0) ∧
      cosine_similarity [(0 : ℚ), 0] [(1 : ℚ)] = 0 :=
  ⟨Or.inr (Or.inr (Or.inl (by norm_num [sumSq]))),
    (cosine_similarity_total [0, 0] [1]).1 (Or.inr (Or.inr (Or.inl (by norm_num [sumSq]))))⟩

/-! ## C1 — result length and score ordering of the search adapters -/

/-- C1: for the in-process backends (json and numpy adapters), over any
loaded record list, stored matrix and query vector, and any requested
`top_k ≥ 1`, the list returned by `search` has length at most `top_k`
and its Hits are ordered by score non-increasing.  (The remaining
backends delegate the ranked, truncated result entirely to an external
service and carry no in-repository ordering logic.) -/
theorem search_length_sorted
    (records : List Rec) (vectors : List (List ℚ)) (query_vec : List ℚ)
    (top_k : ℕ) (it ie : Bool) (_htk : 1 ≤ top_k) :
    ((json_search records query_vec top_k it ie).length ≤ top_k ∧
      (json_search records query_vec top_k it ie).Pairwise
        (fun h₁ h₂ => h₂.score ≤ h₁.score)) ∧
    ((numpy_search records vectors query_vec top_k it ie).length ≤ top_k ∧
      (numpy_search records vectors query_vec top_k it ie).Pairwise
        (fun h₁ h₂ => h₂.score ≤ h₁.score)) := by
  constructor
  · by_cases hr : records = []
    · simp [json_search, hr]
    · simp only [json_search, if_neg hr]
      constructor
      · rw [List.length_map]
        exact List.length_take_le _ _
      · rw [List.pairwise_map]
        have hs : ((records.map
              (fun r => (cosine_similarity query_vec (r.embedding.getD []), r))).mergeSort
                (fun x y => y.1 ≤ x.1)).Pairwise (fun x y : ℚ × Rec => y.1 ≤ x.1) :=
          pairwise_mergeSort_descBy (fun p : ℚ × Rec => p.1) _
        have htake := List.Pairwise.sublist (List.take_sublist top_k _) hs
        exact htake.imp (fun h => h)
  · constructor
    · simp only [numpy_search]
      rw [List.length_map]
      exact List.length_take_le _ _
    · simp only [numpy_search]
      rw [List.pairwise_map]
      have hasc := pairwise_mergeSort_ascBy
        (fun i : ℕ => (numpyScores vectors query_vec).getD i 0)
        (List.range (numpyScores vectors query_vec).length)
      have hdesc : (argsortDesc (numpyScores vectors query_vec)).Pairwise
          (fun i j : ℕ => (numpyScores vectors query_vec).getD j 0 ≤
            (numpyScores vectors query_vec).getD i 0) := by
        rw [argsortDesc, List.pairwise_reverse]
        exact hasc
      have htake := List.Pairwise.sublist (List.take_sublist top_k _) hdesc
      exact htake.imp (fun h => h)

/-- Witness for C1 with `top_k = 2` over the two-record alpha/beta
corpus and the query vector `[1, 0]`. -/
theorem search_length_sorted_witness :
    1 ≤ 2 ∧
    (((json_search [recAlpha, recBeta] [1, 0] 2 true false).length ≤ 2 ∧
      (json_search [recAlpha, recBeta] [1, 0] 2 true false).Pairwise
        (fun h₁ h₂ => h₂.score ≤ h₁.score)) ∧
    ((numpy_search [recAlpha, recBeta] [[1, 0], [0, 1]] [1, 0] 2 true false).length ≤ 2 ∧
      (numpy_search [recAlpha, recBeta] [[1, 0], [0, 1]] [1, 0] 2 true false).Pairwise
        (fun h₁ h₂ => h₂.score ≤ h₁.score))) :=
  ⟨by decide,
    search_length_sorted [recAlpha, recBeta] [[1, 0], [0, 1]] [1, 0] 2 true false (by decide)⟩

/-! ## C8 — include_text / include_embedding omit fields -/

/-- C8: for the in-process backends, if `include_text` is false then no
returned Hit carries a `text` field, and if `include_embedding` is
false then none carries an `embedding` field; the fields are omitted,
never fabricated. -/
theorem search_include_flags
    (records : List Rec) (vectors : List (List ℚ)) (query_vec : List ℚ)
    (top_k : ℕ) (it ie : Bool) :
    (it = false → ∀ h ∈ json_search records query_vec top_k it ie, h.text = none) ∧
    (ie = false → ∀ h ∈ json_search records query_vec top_k it ie, h.embedding = none) ∧
    (it = false → ∀ h ∈ numpy_search records vectors query_vec top_k it ie, h.text = none) ∧
    (ie = false → ∀ h ∈ numpy_search records vectors query_vec top_k it ie, h.embedding = none) := by
  refine ⟨fun hit h hmem => ?_, fun hie h hmem => ?_, fun hit h hmem => ?_, fun hie h hmem => ?_⟩
  · by_cases hr : records = []
    · simp [json_search, hr] at hmem
    · simp only [json_search, if_neg hr] at hmem
      obtain ⟨p, -, rfl⟩ := List.mem_map.mp hmem
      simp [hitOfScored, hit]
  · by_cases hr : records = []
    · simp [json_search, hr] at hmem
    · simp only [json_search, if_neg hr] at hmem
      obtain ⟨p, -, rfl⟩ := List.mem_map.mp hmem
      simp [hitOfScored, hie]
  · simp only [numpy_search] at hmem
    obtain ⟨idx, -, rfl⟩ := List.mem_map.mp hmem
    simp [hit]
  · simp only [numpy_search] at hmem
    obtain ⟨idx, -, rfl⟩ := List.mem_map.mp hmem
    simp [hie]

/-- Witness for C8 with both flags false over the alpha/beta corpus. -/
theorem search_include_flags_witness :
    (false = false →
      ∀ h ∈ json_search [recAlpha, recBeta] [1, 0] 2 false false, h.text = none) ∧
    (false = false →
      ∀ h ∈ json_search [recAlpha, recBeta] [1, 0] 2 false false, h.embedding = none) ∧
    (false = false →
      ∀ h ∈ numpy_search [recAlpha, recBeta] [[1, 0], [0, 1]] [1, 0] 2 false false,
        h.text = none) ∧
    (false = false →
      ∀ h ∈ numpy_search [recAlpha, recBeta] [[1, 0], [0, 1]] [1, 0] 2 false false,
        h.embedding = none) :=
  search_include_flags [recAlpha, recBeta] [[1, 0], [0, 1]] [1, 0] 2 false false

/-! ## C7 — data errors around the candidate corpus -/

theorem ensure_records_error_of_invalid {ls : List SrcLine}
    (h : SrcLine.invalid ∈ ls) : ensure_records ls = .error () := by
  induction ls with
  | nil => cases h
  | cons l ls ih =>
    cases l with
    | blank =>
      rcases List.mem_cons.mp h with h' | h'
      · exact SrcLine.noConfusion h'
      · simp [ensure_records, ih h']
    | invalid => simp [ensure_records]
    | record r =>
      rcases List.mem_cons.mp h with h' | h'
      · exact SrcLine.noConfusion h'
      · cases hr : r.embedding with
        | some e => simp [ensure_records, hr, ih h', Except.map]
        | none => simp [ensure_records, hr, ih h']

theorem ensure_records_ok_of_no_invalid {ls : List SrcLine}
    (h : ∀ l ∈ ls, l ≠ SrcLine.invalid) : ensure_records ls = .ok (goodRecs ls) := by
  induction ls with
  | nil => rfl
  | cons l ls ih =>
    have hl := h l (List.mem_cons_self l ls)
    have hrest : ∀ x ∈ ls, x ≠ SrcLine.invalid :=
      fun x hx => h x (List.mem_cons_of_mem l hx)
    cases l with
    | blank => simp [ensure_records, goodRecs, List.filterMap_cons, ih hrest, goodRecs]
    | invalid => exact absurd rfl hl
    | record r =>
      cases hr : r.embedding with
      | some e =>
        simp [ensure_records, hr, ih hrest, Except.map, goodRecs, List.filterMap_cons]
      | none =>
        simp [ensure_records, hr, ih hrest, goodRecs, List.filterMap_cons]

/-- Counterexample to C7 as stated: with the json backend, a search
over an *empty* corpus does not fail with a data error — it returns
success with an empty hit list. -/
theorem searchJsonOp_empty_corpus_returns_ok :
    searchJsonOp [] [1] 4 true false = Except.ok [] := rfl

/-- C7 (amended): with the json backend, an empty candidate corpus
yields a successful empty result rather than a data error, and a parsed
record whose embedding is missing or not a list is silently skipped at
load time; an artifact line that is not valid JSON does make the load
fail, and that error is surfaced to the caller. -/
theorem search_data_errors
    (ls : List SrcLine) (query_vec : List ℚ) (top_k : ℕ) (it ie : Bool) :
    (ensure_records ls = .ok [] → searchJsonOp ls query_vec top_k it ie = .ok []) ∧
    (SrcLine.invalid ∈ ls → ensure_records ls = .error ()) ∧
    ((∀ l ∈ ls, l ≠ SrcLine.invalid) → ensure_records ls = .ok (goodRecs ls)) := by
  refine ⟨fun h => ?_, ensure_records_error_of_invalid, ensure_records_ok_of_no_invalid⟩
  simp [searchJsonOp, h, json_search, Except.map]

/-- Witness for C7 (amended): a one-line artifact whose line is not
valid JSON makes the load fail. -/
theorem search_data_errors_witness :
    SrcLine.invalid ∈ [SrcLine.invalid] ∧ ensure_records [SrcLine.invalid] = .error () :=
  ⟨List.mem_cons_self _ _,
    (search_data_errors [SrcLine.invalid] [] 1 true false).2.1 (List.mem_cons_self _ _)⟩

/-! ## C9 — backend selection -/

/-- C9: the backend of a store instance is resolved at construction as
the explicit environment override if set (lowercased), else the backend
named in the artifact metadata, else the default `json`; a missing
metadata file is equivalent to empty metadata; and no subsequent
operation on a store state (record loading, reload, faiss index
acquisition) changes the resolved backend. -/
theorem backend_selection
    (override : Option String) (metaFile : Option Meta) (s3 : Bool) :
    (∀ s, override = some s → s ≠ "" →
      (mkStore override metaFile s3).backend = pyLower s) ∧
    ((override = none ∨ override = some "") →
      ∀ m, (load_meta metaFile).backend = some m → m ≠ "" →
        (mkStore override metaFile s3).backend = pyLower m) ∧
    ((override = none ∨ override = some "") →
      ((load_meta metaFile).backend = none ∨ (load_meta metaFile).backend = some "") →
      (mkStore override metaFile s3).backend = "json") ∧
    (mkStore override none s3 =
      mkStore override (some { backend := none, collection := none }) s3) ∧
    (∀ (s : StoreState) ls s', ensureRecordsSt ls s = .ok s' → s'.backend = s.backend) ∧
    (∀ (s : StoreState) download readIdx,
      ((reloadSt download readIdx s).2).backend = s.backend) ∧
    (∀ (s : StoreState) download readIdx s',
      ensureFaissSt download readIdx s = .ok s' → s'.backend = s.backend) := by
  refine ⟨?_, ?_, ?_, rfl, ?_, ?_, ?_⟩
  · intro s hs hne
    subst hs
    simp [mkStore, resolveBackend, pyOrStr, hne]
  · intro hov m hm hne
    rcases hov with hov | hov <;> subst hov <;>
      simp [mkStore, resolveBackend, pyOrStr, hm, hne]
  · intro hov hm
    rcases hov with hov | hov <;> subst hov <;>
      rcases hm with hm | hm <;>
        simp [mkStore, resolveBackend, pyOrStr, hm] <;> decide
  · intro s ls s' h
    cases hrec : s.records with
    | some r => simp [ensureRecordsSt, hrec] at h; rw [← h]
    | none =>
      simp only [ensureRecordsSt, hrec] at h
      cases he : ensure_records ls with
      | error e => rw [he] at h; exact absurd h (by simp [Except.map])
      | ok recs =>
        rw [he] at h
        simp only [Except.map, Except.ok.injEq] at h
        rw [← h]
  · intro s download readIdx
    rw [reloadSt]
    by_cases hb : s.backend = "faiss"
    · rw [if_pos hb]
      cases download with
      | error e => simp [reloadFaissSt]
      | ok u =>
        cases readIdx with
        | error e => simp [reloadFaissSt]
        | ok idx =>
          simp only [reloadFaissSt]
          by_cases h3 : s.s3Enabled <;> simp [h3]
    · rw [if_neg hb]
  · intro s download readIdx s' h
    cases hfi : s.faissIndex with
    | some i => simp [ensureFaissSt, hfi] at h; rw [← h]
    | none =>
      simp only [ensureFaissSt, hfi] at h
      cases download with
      | error e => exact absurd h (by simp)
      | ok u =>
        cases readIdx with
        | error e => exact absurd h (by simp)
        | ok idx =>
          simp only [Except.ok.injEq] at h
          rw [← h]

/-- Witness for C9: an explicit override `NumPy` wins over metadata
naming `faiss` and is lowercased. -/
theorem backend_selection_witness :
    (mkStore (some "NumPy") (some { backend := some "faiss", collection := none }) false).backend =
      pyLower "NumPy" :=
  (backend_selection (some "NumPy")
    (some { backend := some "faiss", collection := none }) false).1 "NumPy" rfl (by decide)

/-! ## C2 — faiss reload failure semantics (code bug) -/

/-- C2 (code bug): `_reload_faiss_index` clears `self._faiss_index`
*before* downloading and reading the new artifact, so a reload whose
download fails (or whose index read fails) leaves the store with no
index at all — the previously loaded generation is dropped, and a
subsequent search against the same failing source errors instead of
answering from the old index, contradicting the specified reload
failure semantics. -/
theorem faiss_reload_failure_drops_old_generation :
    (reloadSt (Except.error ()) (Except.ok 2) faissStoreGen1).1 = Except.error () ∧
    ((reloadSt (Except.error ()) (Except.ok 2) faissStoreGen1).2).faissIndex = none ∧
    faissSearchSt (Except.error ()) (Except.ok 2)
      ((reloadSt (Except.error ()) (Except.ok 2) faissStoreGen1).2) = Except.error () ∧
    (reloadSt (Except.ok ()) (Except.error ()) faissStoreGen1).1 = Except.error () ∧
    ((reloadSt (Except.ok ()) (Except.error ()) faissStoreGen1).2).faissIndex = none :=
  ⟨rfl, rfl, rfl, rfl, rfl⟩

/-! ## C4, C5 — the MMR re-ranker -/

theorem argmaxAux_lt (l : List ℚ) :
    ∀ best bs i, best < i → argmaxAux best bs i l < i + l.length := by
  induction l with
  | nil =>
    intro best bs i hb
    simpa [argmaxAux] using hb
  | cons s rest ih =>
    intro best bs i hb
    simp only [argmaxAux, List.length_cons]
    by_cases hlt : bs < s
    · rw [if_pos hlt]
      have := ih i s (i + 1) (Nat.lt_succ_self i)
      omega
    · rw [if_neg hlt]
      have := ih best bs (i + 1) (Nat.lt_succ_of_lt hb)
      omega

theorem argmaxFirst_lt {l : List ℚ} (h : l ≠ []) : argmaxFirst l < l.length := by
  cases l with
  | nil => exact absurd rfl h
  | cons s rest =>
    simp only [argmaxFirst, List.length_cons]
    have := argmaxAux_lt rest 0 s 1 Nat.one_pos
    omega

theorem mmrLoop_subset (lam : ℚ) (q_vec : List ℚ) (k : ℕ) :
    ∀ fuel selected remaining x, x ∈ mmrLoop lam q_vec k fuel selected remaining →
      x ∈ selected ∨ x ∈ remaining := by
  intro fuel
  induction fuel with
  | zero => exact fun selected remaining x hx => Or.inl hx
  | succ fuel ih =>
    intro selected remaining x hx
    rw [mmrLoop] at hx
    by_cases hc : remaining = [] ∨ k ≤ selected.length
    · rw [if_pos hc] at hx
      exact Or.inl hx
    · rw [if_neg hc] at hx
      have hrne : remaining ≠ [] := fun h0 => hc (Or.inl h0)
      have hmapne : remaining.map (mmrItemScore lam q_vec selected) ≠ [] := by
        intro h0
        exact hrne (List.map_eq_nil_iff.mp h0)
      have hilt : argmaxFirst (remaining.map (mmrItemScore lam q_vec selected)) <
          remaining.length := by
        have := argmaxFirst_lt hmapne
        rwa [List.length_map] at this
      rcases ih _ _ _ hx with hsel | hrem
      · rcases List.mem_append.mp hsel with hsel | hsel
        · exact Or.inl hsel
        · have hxeq : x = remaining.getD
              (argmaxFirst (remaining.map (mmrItemScore lam q_vec selected))) default := by
            simpa using hsel
          right
          rw [hxeq, List.getD_eq_getElem _ _ hilt]
          exact List.getElem_mem hilt
      · exact Or.inr ((List.eraseIdx_sublist remaining _).subset hrem)

theorem mmrLoop_of_le (lam : ℚ) (q_vec : List ℚ) (k : ℕ) (fuel : ℕ)
    (selected remaining : List Hit) (h : k ≤ selected.length) :
    mmrLoop lam q_vec k fuel selected remaining = selected := by
  cases fuel with
  | zero => rfl
  | succ fuel => rw [mmrLoop, if_pos (Or.inr h)]

theorem mmr_eq_of_sorted {q_vec : List ℚ} {cands : List Hit} {k : ℕ} {lam : ℚ}
    {seed : Hit} {rest : List Hit}
    (hcands : cands ≠ []) (hpool : cands.filter hasEmb ≠ [])
    (hs : (cands.filter hasEmb).mergeSort (fun a b =>
        cosine_similarity q_vec (b.embedding.getD []) ≤
          cosine_similarity q_vec (a.embedding.getD [])) = seed :: rest) :
    mmr q_vec cands k lam = (mmrLoop lam q_vec k rest.length [seed] rest).take k := by
  simp [mmr, hcands, hpool, hs]

/-- C4: for `k = 1` and a candidate pool containing at least one
candidate with a (truthy) embedding, the MMR re-ranker returns exactly
one candidate — one of maximal cosine similarity to the query among the
embedded candidates (the selection seed). -/
theorem mmr_k1_highest (q_vec : List ℚ) (cands : List Hit) (lam : ℚ)
    (h : ∃ c ∈ cands, hasEmb c = true) :
    ∃ seed, mmr q_vec cands 1 lam = [seed] ∧ seed ∈ cands ∧ hasEmb seed = true ∧
      ∀ d ∈ cands, hasEmb d = true →
        cosine_similarity q_vec (d.embedding.getD []) ≤
          cosine_similarity q_vec (seed.embedding.getD []) := by
  obtain ⟨c, hc, hce⟩ := h
  have hcands : cands ≠ [] := by
    intro h0
    subst h0
    cases hc
  have hpoolmem : c ∈ cands.filter hasEmb := List.mem_filter.mpr ⟨hc, hce⟩
  have hpool : cands.filter hasEmb ≠ [] := by
    intro h0
    rw [h0] at hpoolmem
    cases hpoolmem
  cases hs : (cands.filter hasEmb).mergeSort (fun a b =>
      cosine_similarity q_vec (b.embedding.getD []) ≤
        cosine_similarity q_vec (a.embedding.getD [])) with
  | nil =>
    have hlen := (List.mergeSort_perm (cands.filter hasEmb) (fun a b =>
      cosine_similarity q_vec (b.embedding.getD []) ≤
        cosine_similarity q_vec (a.embedding.getD []))).length_eq
    rw [hs] at hlen
    exact absurd (List.length_eq_zero.mp hlen.symm) hpool
  | cons seed rest =>
    have hseedmem : seed ∈ cands.filter hasEmb := by
      have : seed ∈ (cands.filter hasEmb).mergeSort (fun a b =>
          cosine_similarity q_vec (b.embedding.getD []) ≤
            cosine_similarity q_vec (a.embedding.getD [])) := by
        rw [hs]
        exact List.mem_cons_self _ _
      exact List.mem_mergeSort.mp this
    have hseedc := List.mem_filter.mp hseedmem
    refine ⟨seed, ?_, hseedc.1, hseedc.2, ?_⟩
    · rw [mmr_eq_of_sorted hcands hpool hs,
        mmrLoop_of_le lam q_vec 1 rest.length [seed] rest (by simp)]
      rfl
    · intro d hd hde
      have hpw : ((cands.filter hasEmb).mergeSort (fun a b =>
          cosine_similarity q_vec (b.embedding.getD []) ≤
            cosine_similarity q_vec (a.embedding.getD []))).Pairwise
          (fun a b => cosine_similarity q_vec (b.embedding.getD []) ≤
            cosine_similarity q_vec (a.embedding.getD [])) :=
        pairwise_mergeSort_descBy (fun c : Hit => cosine_similarity q_vec (c.embedding.getD [])) _
      rw [hs, List.pairwise_cons] at hpw
      have hdmem : d ∈ (cands.filter hasEmb).mergeSort (fun a b =>
          cosine_similarity q_vec (b.embedding.getD []) ≤
            cosine_similarity q_vec (a.embedding.getD [])) :=
        List.mem_mergeSort.mpr (List.mem_filter.mpr ⟨hd, hde⟩)
      rw [hs] at hdmem
      rcases List.mem_cons.mp hdmem with rfl | hdrest
      · exact le_refl _
      · exact hpw.1 d hdrest

/-- Witness for C4: among `[hitBeta, hitAlpha, hitNoEmb]` with query
`[1, 0]`, the re-ranker with `k = 1` selects a single embedded
candidate of maximal query similarity. -/
theorem mmr_k1_highest_witness :
    ∃ seed, mmr [1, 0] [hitBeta, hitAlpha, hitNoEmb] 1 (3 / 4) = [seed] ∧
      seed ∈ [hitBeta, hitAlpha, hitNoEmb] ∧ hasEmb seed = true ∧
      ∀ d ∈ [hitBeta, hitAlpha, hitNoEmb], hasEmb d = true →
        cosine_similarity [1, 0] (d.embedding.getD []) ≤
          cosine_similarity [1, 0] (seed.embedding.getD []) :=
  mmr_k1_highest [1, 0] [hitBeta, hitAlpha, hitNoEmb] (3 / 4)
    ⟨hitBeta, List.mem_cons_self _ _, rfl⟩

/-- C5: candidates lacking a (truthy) embedding are excluded from MMR
re-ranking, and when no candidate has one the re-ranker degrades to
returning the first `k` pool items in their original order instead of
failing. -/
theorem mmr_passthrough_exclusion (q_vec : List ℚ) (cands : List Hit) (k : ℕ) (lam : ℚ) :
    (cands.filter hasEmb = [] → mmr q_vec cands k lam = cands.take k) ∧
    (cands.filter hasEmb ≠ [] → ∀ h ∈ mmr q_vec cands k lam, hasEmb h = true) := by
  constructor
  · intro hpool
    by_cases hc : cands = []
    · subst hc
      simp [mmr]
    · simp [mmr, hc, hpool]
  · intro hpool h hmem
    by_cases hc : cands = []
    · subst hc
      simp [mmr] at hmem
    · cases hs : (cands.filter hasEmb).mergeSort (fun a b =>
          cosine_similarity q_vec (b.embedding.getD []) ≤
            cosine_similarity q_vec (a.embedding.getD [])) with
      | nil =>
        have hlen := (List.mergeSort_perm (cands.filter hasEmb) (fun a b =>
          cosine_similarity q_vec (b.embedding.getD []) ≤
            cosine_similarity q_vec (a.embedding.getD []))).length_eq
        rw [hs] at hlen
        exact absurd (List.length_eq_zero.mp hlen.symm) hpool
      | cons seed rest =>
        rw [mmr_eq_of_sorted hc hpool hs] at hmem
        have hloop : h ∈ mmrLoop lam q_vec k rest.length [seed] rest :=
          (List.take_sublist k _).subset hmem
        have hsr : h ∈ (cands.filter hasEmb).mergeSort (fun a b =>
            cosine_similarity q_vec (b.embedding.getD []) ≤
              cosine_similarity q_vec (a.embedding.getD [])) := by
          rw [hs]
          rcases mmrLoop_subset lam q_vec k rest.length [seed] rest h hloop with hsel | hrem
          · simpa using Or.inl (by simpa using hsel)
          · exact List.mem_cons_of_mem _ hrem
        exact (List.mem_filter.mp (List.mem_mergeSort.mp hsr)).2

/-- Witness for C5: a pool with no embedded candidate passes through
as `cands[:k]`, and over a pool with an embedded candidate every
selected item carries an embedding. -/
theorem mmr_passthrough_exclusion_witness :
    mmr [1, 0] [hitNoEmb] 2 (3 / 4) = [hitNoEmb].take 2 ∧
    (∀ h ∈ mmr [1, 0] [hitAlpha] 1 (3 / 4), hasEmb h = true) :=
  ⟨(mmr_passthrough_exclusion [1, 0] [hitNoEmb] 2 (3 / 4)).1 (by decide),
    (mmr_passthrough_exclusion [1, 0] [hitAlpha] 1 (3 / 4)).2 (by decide)⟩

/-! ## Source-id deduplication lemmas (shared by C3 and C6) -/

theorem sidList_cons (d : Hit) (ds : List Hit) :
    sidList (d :: ds) =
      if sidOf d ≠ "" then sidOf d :: sidList ds else sidList ds := by
  by_cases h : sidOf d = "" <;> simp [sidList, List.filter_cons, h]

theorem dedupSourcesAux_nodup (docs : List Hit) :
    ∀ acc : List String, acc.Nodup → (dedupSourcesAux docs acc).Nodup := by
  induction docs with
  | nil => exact fun acc h => h
  | cons d ds ih =>
    intro acc h
    by_cases hc : sidOf d ≠ "" ∧ sidOf d ∉ acc
    · simp only [dedupSourcesAux, if_pos hc]
      apply ih
      rw [List.nodup_append]
      refine ⟨h, List.nodup_singleton _, fun x hx hx' => ?_⟩
      have : x = sidOf d := by simpa using hx'
      exact hc.2 (this ▸ hx)
    · simp only [dedupSourcesAux, if_neg hc]
      exact ih acc h

theorem dedupSourcesAux_mem (docs : List Hit) :
    ∀ (acc : List String) (s : String),
      s ∈ dedupSourcesAux docs acc ↔ s ∈ acc ∨ s ∈ sidList docs := by
  induction docs with
  | nil =>
    intro acc s
    simp [dedupSourcesAux, sidList]
  | cons d ds ih =>
    intro acc s
    by_cases h1 : sidOf d = ""
    · have hc : ¬(sidOf d ≠ "" ∧ sidOf d ∉ acc) := fun hcc => hcc.1 h1
      simp only [dedupSourcesAux, if_neg hc]
      rw [ih, sidList_cons, if_neg (fun hne => hne h1)]
    · by_cases h2 : sidOf d ∈ acc
      · have hc : ¬(sidOf d ≠ "" ∧ sidOf d ∉ acc) := fun hcc => hcc.2 h2
        simp only [dedupSourcesAux, if_neg hc]
        rw [ih, sidList_cons, if_pos h1]
        constructor
        · rintro (h | h)
          · exact Or.inl h
          · exact Or.inr (List.mem_cons_of_mem _ h)
        · rintro (h | h)
          · exact Or.inl h
          · rcases List.mem_cons.mp h with rfl | h'
            · exact Or.inl h2
            · exact Or.inr h'
      · have hc : sidOf d ≠ "" ∧ sidOf d ∉ acc := ⟨h1, h2⟩
        simp only [dedupSourcesAux, if_pos hc]
        rw [ih, sidList_cons, if_pos h1]
        constructor
        · rintro (h | h)
          · rcases List.mem_append.mp h with h' | h'
            · exact Or.inl h'
            · have : s = sidOf d := by simpa using h'
              exact Or.inr (this ▸ List.mem_cons_self _ _)
          · exact Or.inr (List.mem_cons_of_mem _ h)
        · rintro (h | h)
          · exact Or.inl (List.mem_append.mpr (Or.inl h))
          · rcases List.mem_cons.mp h with rfl | h'
            · exact Or.inl (List.mem_append.mpr (Or.inr (List.mem_cons_self _ _)))
            · exact Or.inr h'

theorem dedupSourcesAux_sublist (docs : List Hit) :
    ∀ acc : List String,
      ∃ t, dedupSourcesAux docs acc = acc ++ t ∧ t.Sublist (sidList docs) := by
  induction docs with
  | nil =>
    intro acc
    exact ⟨[], by simp [dedupSourcesAux], by simp [sidList]⟩
  | cons d ds ih =>
    intro acc
    by_cases hc : sidOf d ≠ "" ∧ sidOf d ∉ acc
    · obtain ⟨t, ht, hts⟩ := ih (acc ++ [sidOf d])
      refine ⟨sidOf d :: t, ?_, ?_⟩
      · simp only [dedupSourcesAux, if_pos hc, ht, List.append_assoc]
        rfl
      · rw [sidList_cons, if_pos hc.1]
        exact List.cons_sublist_cons.mpr hts
    · obtain ⟨t, ht, hts⟩ := ih acc
      refine ⟨t, ?_, ?_⟩
      · simp only [dedupSourcesAux, if_neg hc, ht]
      · rw [sidList_cons]
        by_cases h1 : sidOf d ≠ ""
        · rw [if_pos h1]
          exact hts.trans (List.sublist_cons_self _ _)
        · rw [if_neg h1]
          exact hts

theorem dedupSources_nodup (docs : List Hit) : (dedupSources docs).Nodup :=
  dedupSourcesAux_nodup docs [] List.nodup_nil

theorem dedupSources_mem (docs : List Hit) (s : String) :
    s ∈ dedupSources docs ↔ s ∈ sidList docs := by
  rw [dedupSources, dedupSourcesAux_mem]
  simp

theorem dedupSources_sublist (docs : List Hit) :
    (dedupSources docs).Sublist (sidList docs) := by
  obtain ⟨t, ht, hts⟩ := dedupSourcesAux_sublist docs []
  rw [dedupSources, ht]
  simpa using hts

/-! ## Ladder lemmas (shared by C3 and C6) -/

theorem local_answer_ne_empty (docs : List Hit) : local_answer docs ≠ "" := by
  have h : localAnswerLines docs = summaryOf (collectSents (textsOf docs)) :: "" ::
      "### Key Risks:" ::
      (((if hasRisk (textsOf docs) then risksFound else risksDefault).map
          (fun r => "- " ++ r)) ++
        (if dedupSources docs = [] then []
         else ["", "Sources:"] ++ (dedupSources docs).enum.map
           (fun p => "- [#" ++ toString (p.1 + 1) ++ "] " ++ p.2))) := by
    simp [localAnswerLines]
  rw [local_answer, h]
  exact joinSep_two_ne_empty "\n" _ _ _ (by decide)

theorem local_answer_nil : local_answer [] = insufficientContextMsg := rfl

theorem llm_answer_allFail (isV5 : Bool) (r : Remote) (question : String) (docs : List Hit)
    (hfail : remoteAllFail r) : llm_answer isV5 r question docs = local_answer docs := by
  obtain ⟨h1, h2, h3, h4⟩ := hfail
  by_cases hc : r.clientOk = false
  · simp [llm_answer, hc]
  · cases isV5 <;> simp [llm_answer, hc, responsesPhase, chatPhase, h1, h2, h3, h4]

theorem responsesPhase_false_eq (r : Remote) :
    responsesPhase false r =
      (match r.respText with
        | .error _ => RespStep.cont
        | .ok t => if t ≠ "" then RespStep.ret t else RespStep.cont) := rfl

theorem responsesPhase_true_eq (r : Remote) :
    responsesPhase true r =
      (match r.streamDeltas with
        | .ok deltas =>
          if deltas.filter (fun d => d ≠ "") ≠ [] then
            RespStep.ret (joinSep "" (deltas.filter (fun d => d ≠ "")))
          else
            (match r.respText with
              | .error _ => RespStep.raise
              | .ok t => if t ≠ "" then RespStep.ret t else RespStep.raise)
        | .error _ =>
          (match r.respText with
            | .error _ => RespStep.raise
            | .ok t => if t ≠ "" then RespStep.ret t else RespStep.raise)) := rfl

theorem responsesPhase_ret_ne_empty (isV5 : Bool) (r : Remote) (s : String)
    (h : responsesPhase isV5 r = RespStep.ret s) : s ≠ "" := by
  have hac : ∀ (e₁ e₂ : RespStep) (s' : String),
      (∀ u, e₁ ≠ RespStep.ret u) → (∀ u, e₂ ≠ RespStep.ret u) →
      (match r.respText with
        | .error _ => e₁
        | .ok t => if t ≠ "" then RespStep.ret t else e₂) = RespStep.ret s' →
      s' ≠ "" := by
    intro e₁ e₂ s' he₁ he₂ h'
    cases ht : r.respText with
    | error e =>
      simp only [ht] at h'
      exact absurd h' (he₁ s')
    | ok t =>
      simp only [ht] at h'
      by_cases hte : t ≠ ""
      · rw [if_pos hte, RespStep.ret.injEq] at h'
        exact h' ▸ hte
      · rw [if_neg hte] at h'
        exact absurd h' (he₂ s')
  cases isV5 with
  | false =>
    rw [responsesPhase_false_eq] at h
    exact hac RespStep.cont RespStep.cont s
      (fun u hu => (nomatch hu)) (fun u hu => (nomatch hu)) h
  | true =>
    rw [responsesPhase_true_eq] at h
    cases hsd : r.streamDeltas with
    | ok deltas =>
      simp only [hsd] at h
      by_cases hp : deltas.filter (fun d => d ≠ "") ≠ []
      · rw [if_pos hp, RespStep.ret.injEq] at h
        cases hparts : deltas.filter (fun d => d ≠ "") with
        | nil => exact absurd hparts hp
        | cons p ps =>
          have hpne : p ≠ "" := by
            have hpmem : p ∈ deltas.filter (fun d => d ≠ "") := by
              rw [hparts]
              exact List.mem_cons_self _ _
            simpa using (List.mem_filter.mp hpmem).2
          rw [hparts] at h
          exact h ▸ joinSep_head_ne_empty p ps hpne
      · rw [if_neg hp] at h
        exact hac RespStep.raise RespStep.raise s
          (fun u hu => (nomatch hu)) (fun u hu => (nomatch hu)) h
    | error e =>
      simp only [hsd] at h
      exact hac RespStep.raise RespStep.raise s
        (fun u hu => (nomatch hu)) (fun u hu => (nomatch hu)) h

theorem chatPhase_ok_ne_empty (r : Remote) (s : String)
    (h : chatPhase r = .ok s) (hct : chatContentTruthy r) : s ≠ "" := by
  unfold chatPhase at h
  cases hl : r.chatLegacy with
  | ok c =>
    simp only [hl, Except.ok.injEq] at h
    exact h ▸ hct.1 c hl
  | error e =>
    simp only [hl] at h
    cases hn : r.chatNew with
    | ok c =>
      simp only [hn, Except.ok.injEq] at h
      exact h ▸ hct.2 c hn
    | error e2 =>
      simp only [hn] at h
      exact absurd h (by simp)

theorem remoteDown_allFail : remoteAllFail remoteDown := by
  unfold remoteAllFail remoteDown
  exact ⟨rfl, rfl, rfl, rfl⟩

theorem remoteDown_chatTruthy : chatContentTruthy remoteDown := by
  unfold chatContentTruthy remoteDown
  exact ⟨fun c hc => (nomatch hc), fun c hc => (nomatch hc)⟩

/-! ## C3 — the answer-synthesis ladder -/

/-- Counterexample to C3 as stated: when the Responses attempt raises
and the legacy chat-completions attempt succeeds with empty content,
`_llm_answer` returns `content or ""`, i.e. the empty string — so the
answer is not always non-empty, and for an empty passages list the
result need not be the fixed fallback message. -/
theorem llm_answer_can_be_empty :
    llm_answer false remoteEmptyChat "q" [] = "" := rfl

/-- C3 (amended): the ladder never propagates a remote-service
exception — every all-attempts-failed run is absorbed into the local
fallback; with zero passages and all remote attempts failing it returns
the fixed fallback message; and the answer is non-empty whenever every
*successful* chat-completions attempt carries non-empty content (in
particular whenever every remote attempt fails).  A chat-completions
success with empty content, however, yields an empty answer. -/
theorem llm_answer_ladder (isV5 : Bool) (r : Remote) (question : String) (docs : List Hit) :
    (remoteAllFail r → llm_answer isV5 r question docs = local_answer docs) ∧
    (remoteAllFail r → docs = [] →
      llm_answer isV5 r question docs = insufficientContextMsg) ∧
    (chatContentTruthy r → llm_answer isV5 r question docs ≠ "") := by
  refine ⟨llm_answer_allFail isV5 r question docs, ?_, ?_⟩
  · intro hfail hdocs
    subst hdocs
    rw [llm_answer_allFail isV5 r question [] hfail, local_answer_nil]
  · intro hct
    unfold llm_answer
    by_cases hc : r.clientOk = false
    · rw [if_pos hc]
      exact local_answer_ne_empty docs
    · rw [if_neg hc]
      cases hresp : responsesPhase isV5 r with
      | ret s =>
        simp only [hresp]
        exact responsesPhase_ret_ne_empty isV5 r s hresp
      | raise =>
        simp only [hresp]
        exact local_answer_ne_empty docs
      | cont =>
        simp only [hresp]
        cases hchat : chatPhase r with
        | ok s =>
          simp only [hchat]
          exact chatPhase_ok_ne_empty r s hchat hct
        | error e =>
          simp only [hchat]
          exact local_answer_ne_empty docs

/-- Witness for C3 (amended): with every remote attempt failing, the
empty-passage answer is the fixed message, and with no chat attempt
succeeding the answer over one passage is non-empty. -/
theorem llm_answer_ladder_witness :
    llm_answer true remoteDown "q" [] = insufficientContextMsg ∧
    llm_answer false remoteDown "q" [hitAlpha] ≠ "" :=
  ⟨(llm_answer_ladder true remoteDown "q" []).2.1 remoteDown_allFail rfl,
    (llm_answer_ladder false remoteDown "q" [hitAlpha]).2.2 remoteDown_chatTruthy⟩

/-! ## C6 — local fallback answer and source list -/

theorem mem_line_of_mem_enumFrom (srcs : List String) :
    ∀ (n : ℕ) (sid : String), sid ∈ srcs →
      ∃ line ∈ (List.enumFrom n srcs).map
          (fun p => "- [#" ++ toString (p.1 + 1) ++ "] " ++ p.2),
        sid.data <:+: line.data := by
  induction srcs with
  | nil =>
    intro n sid h
    cases h
  | cons s ss ih =>
    intro n sid h
    rcases List.mem_cons.mp h with rfl | h'
    · refine ⟨"- [#" ++ toString (n + 1) ++ "] " ++ sid, ?_, ?_⟩
      · rw [List.enumFrom_cons, List.map_cons]
        exact List.mem_cons_self _ _
      · rw [String.data_append]
        exact infix_of_suffix (List.suffix_append _ _)
    · obtain ⟨line, hl, hinf⟩ := ih (n + 1) sid h'
      refine ⟨line, ?_, hinf⟩
      rw [List.enumFrom_cons, List.map_cons]
      exact List.mem_cons_of_mem _ hl

/-- C6: when every remote reasoning attempt fails, the locally
synthesized answer is non-empty and contains (as a substring) every
distinct non-empty source id of the supplied passages, and the appended
source list is deduplicated (no duplicates) and order-preserving (a
sublist of the raw occurrence list) while covering exactly the
non-empty ids of the passages. -/
theorem local_fallback_sources (isV5 : Bool) (r : Remote) (question : String)
    (docs : List Hit) (hfail : remoteAllFail r) :
    llm_answer isV5 r question docs ≠ "" ∧
    (∀ d ∈ docs, sidOf d ≠ "" →
      (sidOf d).data <:+: (llm_answer isV5 r question docs).data) ∧
    (dedupSources docs).Nodup ∧
    (dedupSources docs).Sublist (sidList docs) ∧
    (∀ s, s ∈ dedupSources docs ↔ s ∈ sidList docs) := by
  rw [llm_answer_allFail isV5 r question docs hfail]
  refine ⟨local_answer_ne_empty docs, ?_, dedupSources_nodup docs,
    dedupSources_sublist docs, dedupSources_mem docs⟩
  intro d hd hsid
  have hsmem : sidOf d ∈ sidList docs :=
    List.mem_filter.mpr ⟨List.mem_map_of_mem sidOf hd, by simpa using hsid⟩
  have hdmem : sidOf d ∈ dedupSources docs := (dedupSources_mem docs (sidOf d)).mpr hsmem
  have hsrcs : dedupSources docs ≠ [] := by
    intro h0
    rw [h0] at hdmem
    cases hdmem
  obtain ⟨line, hlmem, hinf⟩ := mem_line_of_mem_enumFrom (dedupSources docs) 0 (sidOf d) hdmem
  have hlinemem : line ∈ localAnswerLines docs := by
    rw [localAnswerLines]
    refine List.mem_append.mpr (Or.inr ?_)
    rw [if_neg hsrcs]
    exact List.mem_append.mpr (Or.inr hlmem)
  rw [local_answer]
  exact infix_trans hinf (mem_infix_joinSep "\n" hlinemem)

/-- Witness for C6 over three passages with a duplicated source id. -/
theorem local_fallback_sources_witness :
    llm_answer false remoteDown "q" [hitAlpha, hitBeta, hitAlpha] ≠ "" ∧
    (∀ d ∈ [hitAlpha, hitBeta, hitAlpha], sidOf d ≠ "" →
      (sidOf d).data <:+:
        (llm_answer false remoteDown "q" [hitAlpha, hitBeta, hitAlpha]).data) ∧
    (dedupSources [hitAlpha, hitBeta, hitAlpha]).Nodup ∧
    (dedupSources [hitAlpha, hitBeta, hitAlpha]).Sublist
      (sidList [hitAlpha, hitBeta, hitAlpha]) ∧
    (∀ s, s ∈ dedupSources [hitAlpha, hitBeta, hitAlpha] ↔
      s ∈ sidList [hitAlpha, hitBeta, hitAlpha]) :=
  local_fallback_sources false remoteDown "q" [hitAlpha, hitBeta, hitAlpha]
    remoteDown_allFail

end AIAgentsPortfolio
